import Mathlib

/-!
Verification of the Lazarus Protocol core: a shallow embedding of the
`LazarusSource` dead-man's-switch contract, the watchtower heartbeat relay
(`server.ts` / `yellowSignature.ts` / the SQLite heartbeat store) and the
liquidation scanner (`liquidator.ts`), with theorems checking the
natural-language specification against this embedding.

Modelling conventions:
* Ethereum addresses and `uint256` values are modelled as `Nat`.  Solidity
  0.8 checked arithmetic reverts on overflow at `2^256`; modelling the
  values as unbounded `Nat` only adds behaviours above `2^256` and none of
  the properties below depend on the bound (they are proved for all `Nat`,
  which subsumes the bounded case).
* Contract storage mappings become total functions `Nat → _` with the
  Solidity default values (`0` / `false`) as the initial map.
* A reverting call is an `Except .error`; the EVM's transactional
  semantics (a revert rolls every state change of the call back) is
  captured once, in `applyOp`, which keeps the pre-state on error.
* ERC-20 `transferFrom`/`transfer` are modelled with their balance and
  allowance guards (OpenZeppelin semantics; the infinite-allowance
  sentinel is irrelevant below `2^256` and not modelled).
* The LI.FI diamond is an external black box: the low-level
  `lifiDiamond.call(_swapData)` is modelled by a boolean oracle
  `bridgeOk`; on failure the contract reverts (bubbling the returndata or
  `BridgeCallFailed` — both are collapsed into the `BridgeCallFailed`
  error, the distinction being only in the revert payload).
-/

namespace Lazarus

/-- Pointwise update of a one-key storage mapping. -/
def upd {α : Type} (f : Nat → α) (k : Nat) (v : α) : Nat → α :=
  fun x => if x = k then v else f x

/-- Pointwise update of a two-key storage mapping. -/
def upd2 (f : Nat → Nat → Nat) (k1 k2 v : Nat) : Nat → Nat → Nat :=
  fun a b => if a = k1 ∧ b = k2 then v else f a b

/-- The custom errors of `LazarusSource` (plus `TransferFailed` for a
revert raised inside an ERC-20 token call). -/
inductive SrcError where
  | NotWatchtower
  | AlreadyRegistered
  | NotRegistered
  | NotDeadYet
  | AlreadyDead
  | InvalidBeneficiary
  | InvalidToken
  | InsufficientAllowance
  | ZeroAddress
  | BridgeCallFailed
  | ZeroAmount
  | InsufficientDeposit
  | TransferFailed
deriving Repr, DecidableEq

/-- `LIQUIDATION_FEE_BPS` of `LazarusSource`. -/
def LIQUIDATION_FEE_BPS : Nat := 100

/-- `BPS_DENOMINATOR` of `LazarusSource`. -/
def BPS_DENOMINATOR : Nat := 10000

/-- The storage of the `LazarusSource` contract. -/
structure SourceState where
  watchtower : Nat
  lifiDiamond : Nat
  beneficiaries : Nat → Nat
  lastHeartbeat : Nat → Nat
  inactivityPeriods : Nat → Nat
  isDead : Nat → Bool
  isRegistered : Nat → Bool
  userDeposits : Nat → Nat → Nat

/-- The world a `LazarusSource` call runs in: the contract's own address,
its storage, and for each ERC-20 token the balances of every holder, the
allowance each owner has granted to the contract, and the allowance the
contract has granted to the LI.FI diamond (`forceApprove`). -/
structure World where
  self : Nat
  src : SourceState
  balances : Nat → Nat → Nat
  allowances : Nat → Nat → Nat
  lifiApproval : Nat → Nat

/-- ERC-20 `transferFrom owner recv amt` called by the Lazarus contract:
requires the owner's allowance to the contract and the owner's balance to
cover `amt`, decrements both and credits the recipient. -/
def erc20TransferFrom (token owner recv amt : Nat) (w : World) :
    Except SrcError World :=
  if amt ≤ w.allowances token owner ∧ amt ≤ w.balances token owner then
    let bal1 := upd2 w.balances token owner (w.balances token owner - amt)
    let bal2 := upd2 bal1 token recv (bal1 token recv + amt)
    .ok { w with
      allowances := upd2 w.allowances token owner (w.allowances token owner - amt)
      balances := bal2 }
  else .error .TransferFailed

/-- ERC-20 `transfer` out of `owner`'s balance. -/
def erc20Transfer (token owner recv amt : Nat) (w : World) :
    Except SrcError World :=
  if amt ≤ w.balances token owner then
    let bal1 := upd2 w.balances token owner (w.balances token owner - amt)
    let bal2 := upd2 bal1 token recv (bal1 token recv + amt)
    .ok { w with balances := bal2 }
  else .error .TransferFailed

/-- Big-endian value of a byte string (how `liquidate` assembles the 20
calldata bytes `_swapData[i .. i+19]` into an `address` via
`addrBytes |= bytes20(_swapData[i + j]) >> (j * 8)`). -/
def natOfBytes (bs : List (Fin 256)) : Nat :=
  bs.foldl (fun acc b => acc * 256 + b.val) 0

/-- The address extracted from calldata at byte position `i`. -/
def extractAddr (data : List (Fin 256)) (i : Nat) : Nat :=
  natOfBytes ((data.drop i).take 20)

/-- The calldata scan of `liquidate`: look for the beneficiary at every
byte offset `i` with `4 ≤ i` and `i + 20 ≤ min data.length 200`
(`searchLen = _swapData.length > 200 ? 200 : _swapData.length`). -/
def beneficiaryFound (data : List (Fin 256)) (ben : Nat) : Bool :=
  let searchLen := min data.length 200
  (List.range searchLen).any fun i =>
    decide (4 ≤ i) && decide (i + 20 ≤ searchLen) && (extractAddr data i == ben)

/-- The amounts computed by a successful `liquidate` call. -/
structure LiqInfo where
  beneficiary : Nat
  amountToTransfer : Nat
  fee : Nat
  bridged : Nat
deriving Repr, DecidableEq

/-- `LazarusSource.liquidate(_user, _token, _swapData)` called by
`sender` at block timestamp `now`; `bridgeOk` is the success oracle of
the external `lifiDiamond.call(_swapData)`. -/
def liquidate (sender user token : Nat) (swapData : List (Fin 256))
    (now : Nat) (bridgeOk : Bool) (w : World) :
    Except SrcError (World × LiqInfo) :=
  if sender ≠ w.src.watchtower then .error .NotWatchtower
  else if ¬ w.src.isRegistered user then .error .NotRegistered
  else if token = 0 then .error .InvalidToken
  else if now ≤ w.src.lastHeartbeat user + w.src.inactivityPeriods user then
    .error .NotDeadYet
  else
    let beneficiary := w.src.beneficiaries user
    if 68 ≤ swapData.length ∧ beneficiaryFound swapData beneficiary = false then
      .error .InvalidBeneficiary
    else
      let src1 :=
        if w.src.isDead user then w.src
        else { w.src with isDead := upd w.src.isDead user true }
      let depositedAmount := w.src.userDeposits user token
      let allowance := w.allowances token user
      let userBalance := w.balances token user
      let allowanceAmount := if allowance < userBalance then allowance else userBalance
      let amountToTransfer := depositedAmount + allowanceAmount
      if amountToTransfer = 0 then .error .InsufficientAllowance
      else
        let src2 :=
          if 0 < depositedAmount then
            { src1 with userDeposits := upd2 src1.userDeposits user token 0 }
          else src1
        let w2 := { w with src := src2 }
        match (if 0 < allowanceAmount then
                 erc20TransferFrom token user w.self allowanceAmount w2
               else .ok w2) with
        | .error e => .error e
        | .ok w3 =>
          let watchtowerFee := amountToTransfer * LIQUIDATION_FEE_BPS / BPS_DENOMINATOR
          let amountToBridge := amountToTransfer - watchtowerFee
          match (if 0 < watchtowerFee then
                   erc20Transfer token w.self sender watchtowerFee w3
                 else .ok w3) with
          | .error e => .error e
          | .ok w4 =>
            let w5 := { w4 with lifiApproval := upd w4.lifiApproval token amountToBridge }
            if bridgeOk then
              .ok (w5, ⟨beneficiary, amountToTransfer, watchtowerFee, amountToBridge⟩)
            else .error .BridgeCallFailed

/-- `LazarusSource.register`. -/
def register (sender ben period now : Nat) (w : World) : Except SrcError World :=
  if ben = 0 then .error .InvalidBeneficiary
  else if ben = sender then .error .InvalidBeneficiary
  else if period < 30 then .error .ZeroAmount
  else if w.src.isRegistered sender then .error .AlreadyRegistered
  else .ok { w with src := { w.src with
    beneficiaries := upd w.src.beneficiaries sender ben
    inactivityPeriods := upd w.src.inactivityPeriods sender period
    lastHeartbeat := upd w.src.lastHeartbeat sender now
    isRegistered := upd w.src.isRegistered sender true } }

/-- `LazarusSource.updateInactivityPeriod`. -/
def updateInactivityPeriod (sender period : Nat) (w : World) : Except SrcError World :=
  if ¬ w.src.isRegistered sender then .error .NotRegistered
  else if w.src.isDead sender then .error .AlreadyDead
  else if period < 30 then .error .ZeroAmount
  else .ok { w with src := { w.src with
    inactivityPeriods := upd w.src.inactivityPeriods sender period } }

/-- `LazarusSource.updateBeneficiary`. -/
def updateBeneficiary (sender ben : Nat) (w : World) : Except SrcError World :=
  if ¬ w.src.isRegistered sender then .error .NotRegistered
  else if w.src.isDead sender then .error .AlreadyDead
  else if ben = 0 then .error .InvalidBeneficiary
  else if ben = sender then .error .InvalidBeneficiary
  else .ok { w with src := { w.src with
    beneficiaries := upd w.src.beneficiaries sender ben } }

/-- `LazarusSource.ping`. -/
def ping (sender now : Nat) (w : World) : Except SrcError World :=
  if ¬ w.src.isRegistered sender then .error .NotRegistered
  else if w.src.isDead sender then .error .AlreadyDead
  else .ok { w with src := { w.src with
    lastHeartbeat := upd w.src.lastHeartbeat sender now } }

/-- `LazarusSource.pingFor` (watchtower-only). -/
def pingFor (sender user now : Nat) (w : World) : Except SrcError World :=
  if sender ≠ w.src.watchtower then .error .NotWatchtower
  else if ¬ w.src.isRegistered user then .error .NotRegistered
  else if w.src.isDead user then .error .AlreadyDead
  else .ok { w with src := { w.src with
    lastHeartbeat := upd w.src.lastHeartbeat user now } }

/-- `LazarusSource.depositFunds`. -/
def depositFunds (sender token amount now : Nat) (w : World) : Except SrcError World :=
  if ¬ w.src.isRegistered sender then .error .NotRegistered
  else if w.src.isDead sender then .error .AlreadyDead
  else if token = 0 then .error .InvalidToken
  else if amount = 0 then .error .ZeroAmount
  else
    match erc20TransferFrom token sender w.self amount w with
    | .error e => .error e
    | .ok w1 =>
      .ok { w1 with src := { w1.src with
        userDeposits := upd2 w1.src.userDeposits sender token
          (w1.src.userDeposits sender token + amount)
        lastHeartbeat := upd w1.src.lastHeartbeat sender now } }

/-- `LazarusSource.withdrawFunds`. -/
def withdrawFunds (sender token amount now : Nat) (w : World) : Except SrcError World :=
  if ¬ w.src.isRegistered sender then .error .NotRegistered
  else if w.src.isDead sender then .error .AlreadyDead
  else if token = 0 then .error .InvalidToken
  else if amount = 0 then .error .ZeroAmount
  else if w.src.userDeposits sender token < amount then .error .InsufficientDeposit
  else
    let w1 := { w with src := { w.src with
      userDeposits := upd2 w.src.userDeposits sender token
        (w.src.userDeposits sender token - amount) } }
    match erc20Transfer token w.self sender amount w1 with
    | .error e => .error e
    | .ok w2 =>
      .ok { w2 with src := { w2.src with
        lastHeartbeat := upd w2.src.lastHeartbeat sender now } }

/-- `LazarusSource.checkUserStatus` (view). -/
def checkUserStatus (s : SourceState) (user now : Nat) : Bool × Nat :=
  if ¬ s.isRegistered user then (false, 0)
  else
    let deadline := s.lastHeartbeat user + s.inactivityPeriods user
    if deadline < now then (true, 0) else (false, deadline - now)

/-- The tuple returned by `LazarusSource.getUserInfo` (view). -/
structure UserInfo where
  registered : Bool
  beneficiary : Nat
  lastPing : Nat
  inactivityPeriod : Nat
  dead : Bool
deriving Repr, DecidableEq

/-- `LazarusSource.getUserInfo` (view). -/
def getUserInfo (s : SourceState) (user : Nat) : UserInfo :=
  ⟨s.isRegistered user, s.beneficiaries user, s.lastHeartbeat user,
   s.inactivityPeriods user, s.isDead user⟩

/-- The external call surface of `LazarusSource` that mutates user state
(the admin functions `setWatchtower` / `setLiFiDiamond` / `rescueTokens`
touch neither the per-user storage nor the `liquidate` outcome shape and
are subsumed by the environment step of `Reachable`). -/
inductive Op where
  | register (sender ben period : Nat)
  | updateInactivityPeriod (sender period : Nat)
  | updateBeneficiary (sender ben : Nat)
  | ping (sender : Nat)
  | pingFor (sender user : Nat)
  | depositFunds (sender token amount : Nat)
  | withdrawFunds (sender token amount : Nat)
  | liquidate (sender user token : Nat) (swapData : List (Fin 256)) (bridgeOk : Bool)

/-- Run one external call; an `.error` is a revert. -/
def execOp (now : Nat) (op : Op) (w : World) : Except SrcError World :=
  match op with
  | .register sender ben period => register sender ben period now w
  | .updateInactivityPeriod sender period => updateInactivityPeriod sender period w
  | .updateBeneficiary sender ben => updateBeneficiary sender ben w
  | .ping sender => ping sender now w
  | .pingFor sender user => pingFor sender user now w
  | .depositFunds sender token amount => depositFunds sender token amount now w
  | .withdrawFunds sender token amount => withdrawFunds sender token amount now w
  | .liquidate sender user token swapData bridgeOk =>
    (liquidate sender user token swapData now bridgeOk w).map Prod.fst

/-- Transactional semantics of an external call: a revert rolls back
every state change, a success commits the new world. -/
def applyOp (now : Nat) (op : Op) (w : World) : World :=
  match execOp now op w with
  | .ok w' => w'
  | .error _ => w

/-- The storage right after the `LazarusSource` constructor: all user
mappings hold their Solidity defaults. -/
def initialSource (wt lifi : Nat) : SourceState :=
  { watchtower := wt
    lifiDiamond := lifi
    beneficiaries := fun _ => 0
    lastHeartbeat := fun _ => 0
    inactivityPeriods := fun _ => 0
    isDead := fun _ => false
    isRegistered := fun _ => false
    userDeposits := fun _ _ => 0 }

/-- Worlds reachable from deployment by contract calls at arbitrary block
timestamps, interleaved with arbitrary environment activity on the token
side (user approvals, transfers, mints — anything that does not run
`LazarusSource` code). -/
inductive Reachable : World → Prop
  | init (self wt lifi : Nat) (bal alw : Nat → Nat → Nat) (apv : Nat → Nat)
      (hwt : wt ≠ 0) (hlifi : lifi ≠ 0) :
      Reachable ⟨self, initialSource wt lifi, bal, alw, apv⟩
  | step (now : Nat) (op : Op) {w : World} :
      Reachable w → Reachable (applyOp now op w)
  | env (bal alw : Nat → Nat → Nat) (apv : Nat → Nat) {w : World} :
      Reachable w →
      Reachable { w with balances := bal, allowances := alw, lifiApproval := apv }

example : beneficiaryFound [] 9 = false := by decide

/-! ### Byte-level reading of the calldata scan

`liquidate` compares the address assembled from 20 consecutive calldata
bytes with the stored beneficiary.  The following connects that integer
comparison with the occurrence of the beneficiary's 20 raw (big-endian)
bytes as a contiguous slice of the payload. -/

/-- The `k`-byte big-endian representation of `n % 256 ^ k`. -/
def bytesBE : Nat → Nat → List (Fin 256)
  | 0, _ => []
  | k+1, n => bytesBE k (n / 256) ++ [⟨n % 256, Nat.mod_lt _ (by norm_num)⟩]

theorem bytesBE_length (k n : Nat) : (bytesBE k n).length = k := by
  induction k generalizing n with
  | zero => rfl
  | succ k ih => simp [bytesBE, ih]

theorem natOfBytes_append (l : List (Fin 256)) (b : Fin 256) :
    natOfBytes (l ++ [b]) = natOfBytes l * 256 + b.val := by
  simp [natOfBytes, List.foldl_append]

theorem natOfBytes_bytesBE (k n : Nat) :
    natOfBytes (bytesBE k n) = n % 256 ^ k := by
  induction k generalizing n with
  | zero => simp [bytesBE, natOfBytes, Nat.mod_one]
  | succ k ih =>
    rw [bytesBE, natOfBytes_append, ih]
    have h : n % (256 * 256 ^ k) = n % 256 + 256 * (n / 256 % 256 ^ k) := Nat.mod_mul
    have h2 : (256:Nat) ^ (k+1) = 256 * 256 ^ k := by ring
    rw [h2]
    show n / 256 % 256 ^ k * 256 + n % 256 = n % (256 * 256 ^ k)
    omega

theorem bytesBE_natOfBytes (l : List (Fin 256)) :
    bytesBE l.length (natOfBytes l) = l := by
  induction l using List.reverseRecOn with
  | nil => rfl
  | append_singleton l b ih =>
    rw [natOfBytes_append]
    have hlen : (l ++ [b]).length = l.length + 1 := by simp
    rw [hlen, bytesBE]
    have hb : b.val < 256 := b.isLt
    have hdiv : (natOfBytes l * 256 + b.val) / 256 = natOfBytes l := by omega
    have hmod : (natOfBytes l * 256 + b.val) % 256 = b.val := by omega
    rw [hdiv, ih]
    congr 1
    simp [List.cons.injEq, Fin.ext_iff, hmod]

theorem extractAddr_eq_iff (data : List (Fin 256)) (i ben : Nat)
    (hlen : i + 20 ≤ data.length) (hben : ben < 2 ^ 160) :
    extractAddr data i = ben ↔ (data.drop i).take 20 = bytesBE 20 ben := by
  have hslice : ((data.drop i).take 20).length = 20 := by
    simp [List.length_take, List.length_drop]
    omega
  constructor
  · intro h
    rw [extractAddr] at h
    have h2 := bytesBE_natOfBytes ((data.drop i).take 20)
    rw [hslice, h] at h2
    exact h2.symm
  · intro h
    rw [extractAddr, h, natOfBytes_bytesBE]
    have h256 : (256:Nat) ^ 20 = 2 ^ 160 := by norm_num
    rw [h256]
    exact Nat.mod_eq_of_lt hben

/-- The calldata scan succeeds exactly when the beneficiary's 20 raw
big-endian bytes occur as a contiguous slice at some byte offset `i`,
`4 ≤ i`, wholly inside the scanned window (first `min length 200`
bytes). -/
theorem beneficiaryFound_iff (data : List (Fin 256)) (ben : Nat) (hben : ben < 2 ^ 160) :
    beneficiaryFound data ben = true ↔
      ∃ i, 4 ≤ i ∧ i + 20 ≤ min data.length 200 ∧
        (data.drop i).take 20 = bytesBE 20 ben := by
  simp only [beneficiaryFound, List.any_eq_true, List.mem_range, Bool.and_eq_true,
    decide_eq_true_eq, beq_iff_eq]
  constructor
  · rintro ⟨i, hi, ⟨h4, h20⟩, hex⟩
    exact ⟨i, h4, h20,
      (extractAddr_eq_iff data i ben (le_trans h20 (min_le_left _ _)) hben).1 hex⟩
  · rintro ⟨i, h4, h20, hsl⟩
    exact ⟨i, by omega, ⟨h4, h20⟩,
      (extractAddr_eq_iff data i ben (le_trans h20 (min_le_left _ _)) hben).2 hsl⟩

/-- A successful `liquidate` call can never have taken the
`InvalidBeneficiary` branch: if the payload is at least 68 bytes long and
the scan fails, the call reverts. -/
theorem liquidate_ok_not_rejected {sender user token : Nat} {data : List (Fin 256)}
    {now : Nat} {bridgeOk : Bool} {w : World} {res : World × LiqInfo}
    (h : liquidate sender user token data now bridgeOk w = .ok res) :
    ¬ (68 ≤ data.length ∧ beneficiaryFound data (w.src.beneficiaries user) = false) := by
  intro hc
  rw [liquidate] at h
  split at h
  · cases h
  split at h
  · cases h
  split at h
  · cases h
  split at h
  · cases h
  rw [if_pos hc] at h
  cases h

/-! ### The heartbeat relay (`yellowSignature.ts`, `server.ts`, the
SQLite `HeartbeatStore`)

The EIP-712 `verifyTypedData` check is a pure function of the message,
signature, claimed signer and chain id; it is abstracted by the boolean
parameter `sigOk`.  Timestamps carried in messages are `BigInt` in the
source, hence `Int` here; wall-clock milliseconds are `Nat`. -/

/-- The `{message, timestamp, nonce}` heartbeat payload. -/
structure HeartbeatMsg where
  message : String
  timestamp : Int
  nonce : Int
deriving Repr, DecidableEq

/-- `verifyYellowSignature`: the freshness window
(`timestamp < now - 300 || timestamp > now + 300` rejects) followed by
the EIP-712 signature check.  No other check is performed — in
particular no nonce bookkeeping. -/
def verifyYellowSignature (sigOk : HeartbeatMsg → String → Nat → Nat → Bool)
    (msg : HeartbeatMsg) (sig : String) (signer chainId : Nat) (nowSec : Int) : Bool :=
  if msg.timestamp < nowSec - 300 ∨ nowSec + 300 < msg.timestamp then false
  else sigOk msg sig signer chainId

/-- A row of the `heartbeats` table. -/
structure CacheRecord where
  lastSeen : Nat
  signature : String
  inactivityPeriod : Nat
  createdAt : Nat
  updatedAt : Nat
deriving Repr, DecidableEq

/-- The heartbeat cache, keyed by the (canonicalised) user address. -/
def Store : Type := Nat → Option CacheRecord

/-- `HeartbeatStore.recordHeartbeat`: upsert — `last_seen`, `signature`,
`inactivity_period` and `updated_at` are overwritten, `created_at` is
kept on conflict (SQL `ON CONFLICT ... DO UPDATE`). -/
def recordHeartbeat (store : Store) (addr : Nat) (sig : String)
    (period nowMs : Nat) : Store :=
  upd store addr (some (match store addr with
    | some r =>
      { lastSeen := nowMs, signature := sig, inactivityPeriod := period
        createdAt := r.createdAt, updatedAt := nowMs }
    | none =>
      { lastSeen := nowMs, signature := sig, inactivityPeriod := period
        createdAt := nowMs, updatedAt := nowMs }))

/-- `HeartbeatStore.removeUser`. -/
def removeUser (store : Store) (addr : Nat) : Store := upd store addr none

/-- Outcome of `POST /heartbeat` (the 400 branches for missing fields and
malformed address are shape errors outside this well-typed model). -/
inductive HbResponse where
  | unauthorized
  | okAt (lastSeen : Nat)
deriving Repr, DecidableEq

/-- The `POST /heartbeat` handler: verify the signature, determine the
inactivity period — from the existing cache record if any, otherwise from
the on-chain `getUserInfo` read (`chainPeriod = none` models the read
throwing, in which case the default `604800` is used) — and upsert the
cache record. -/
def heartbeatPost (sigOk : HeartbeatMsg → String → Nat → Nat → Bool)
    (chainId : Nat) (chainPeriod : Option Nat) (addr : Nat) (msg : HeartbeatMsg)
    (sig : String) (nowSec : Int) (nowMs : Nat) (store : Store) :
    HbResponse × Store :=
  if verifyYellowSignature sigOk msg sig addr chainId nowSec = false then
    (.unauthorized, store)
  else
    let period :=
      match store addr with
      | some r => r.inactivityPeriod
      | none =>
        match chainPeriod with
        | some p => p
        | none => 604800
    (.okAt nowMs, recordHeartbeat store addr sig period nowMs)

/-! ### The scanner's per-user token loop (`runLiquidationCheck`)

`executeLiquidation` is an effectful chain interaction; for the cache
bookkeeping of `runLiquidationCheck` only its per-token `success` flag
matters, abstracted by the oracle `attempt`. -/

/-- The inner token loop of `runLiquidationCheck` for one user: collect
per-token results and the `anySuccess` accumulator. -/
def processUserTokens (attempt : Nat → Bool) (tokens : List Nat) :
    List Bool × Bool :=
  tokens.foldl (fun acc t => (acc.1 ++ [attempt t], acc.2 || attempt t)) ([], false)

/-- The tail of `runLiquidationCheck` for one user: run every supported
token, then remove the user from the cache only if at least one token
settlement succeeded. -/
def runUserLiquidation (store : Store) (user : Nat) (tokens : List Nat)
    (attempt : Nat → Bool) : Store × List Bool :=
  let p := processUserTokens attempt tokens
  ((if p.2 then removeUser store user else store), p.1)

/-! ### Inversion and sufficiency lemmas for `liquidate` -/

/-- The wallet-side portion `min(walletAllowance, walletBalance)` pulled
by `liquidate` (`allowance < userBalance ? allowance : userBalance`). -/
def allowancePortion (w : World) (token user : Nat) : Nat :=
  if w.allowances token user < w.balances token user then w.allowances token user
  else w.balances token user

/-- The two-source aggregate `liquidate` sweeps:
`userDeposits[_user][_token] + min(allowance, balance)`. -/
def liqAmount (w : World) (user token : Nat) : Nat :=
  w.src.userDeposits user token + allowancePortion w token user

theorem allowancePortion_eq_min (w : World) (token user : Nat) :
    allowancePortion w token user = min (w.allowances token user) (w.balances token user) := by
  rw [allowancePortion, min_def]
  split_ifs <;> omega

/-- A successful `liquidate` call passed every guard, and its reported
amounts are exactly the aggregate, the basis-point fee and the
remainder. -/
theorem liquidate_ok_guards {sender user token : Nat} {data : List (Fin 256)}
    {now : Nat} {bridgeOk : Bool} {w : World} {res : World × LiqInfo}
    (h : liquidate sender user token data now bridgeOk w = .ok res) :
    sender = w.src.watchtower ∧
    w.src.isRegistered user = true ∧
    token ≠ 0 ∧
    w.src.lastHeartbeat user + w.src.inactivityPeriods user < now ∧
    bridgeOk = true ∧
    liqAmount w user token ≠ 0 ∧
    res.2 = ⟨w.src.beneficiaries user, liqAmount w user token,
             liqAmount w user token * LIQUIDATION_FEE_BPS / BPS_DENOMINATOR,
             liqAmount w user token -
               liqAmount w user token * LIQUIDATION_FEE_BPS / BPS_DENOMINATOR⟩ := by
  simp only [liquidate] at h
  by_cases h1 : sender ≠ w.src.watchtower
  · rw [if_pos h1] at h; cases h
  rw [if_neg h1] at h
  by_cases h2 : ¬ w.src.isRegistered user = true
  · rw [if_pos h2] at h; cases h
  rw [if_neg h2] at h
  by_cases h3 : token = 0
  · rw [if_pos h3] at h; cases h
  rw [if_neg h3] at h
  by_cases h4 : now ≤ w.src.lastHeartbeat user + w.src.inactivityPeriods user
  · rw [if_pos h4] at h; cases h
  rw [if_neg h4] at h
  by_cases hval : 68 ≤ data.length ∧ beneficiaryFound data (w.src.beneficiaries user) = false
  · rw [if_pos hval] at h; cases h
  rw [if_neg hval] at h
  by_cases hamt : w.src.userDeposits user token +
      (if w.allowances token user < w.balances token user then w.allowances token user
       else w.balances token user) = 0
  · rw [if_pos hamt] at h; cases h
  rw [if_neg hamt] at h
  repeat' split at h
  all_goals try cases h
  all_goals
    refine ⟨by simpa using h1, by simpa using h2, h3, by omega, by assumption, hamt, ?_⟩
  all_goals
    simp only [liqAmount, allowancePortion]
  all_goals
    first
      | rfl
      | (split
         all_goals
           first
             | rfl
             | (rename_i hx; exact absurd hx (by assumption)))

/-- One transfer stage of `liquidate`: `if (allowanceAmount > 0)` pull
via `safeTransferFrom`. -/
theorem stageTF_inv {token owner recv amt : Nat} {w2 w3 : World}
    (h : (if 0 < amt then erc20TransferFrom token owner recv amt w2 else Except.ok w2) = .ok w3) :
    w3.src = w2.src ∧ w3.self = w2.self ∧ w3.lifiApproval = w2.lifiApproval ∧
    (owner ≠ recv → w3.balances token owner = w2.balances token owner - amt) ∧
    (owner ≠ recv → w3.balances token recv = w2.balances token recv + amt) := by
  by_cases hp : 0 < amt
  · rw [if_pos hp, erc20TransferFrom] at h
    split_ifs at h with hc
    · injection h with h
      subst h
      refine ⟨rfl, rfl, rfl, ?_, ?_⟩
      · intro hne
        simp [upd2, hne]
      · intro hne
        simp [upd2, hne, Ne.symm hne]
  · rw [if_neg hp] at h
    injection h with h
    subst h
    refine ⟨rfl, rfl, rfl, ?_, ?_⟩
    all_goals
      intro _
      have hz : amt = 0 := by omega
      simp [hz]

/-- The fee stage of `liquidate`: `if (watchtowerFee > 0)` pay via
`safeTransfer`. -/
theorem stageT_inv {token owner recv amt : Nat} {w3 w4 : World}
    (h : (if 0 < amt then erc20Transfer token owner recv amt w3 else Except.ok w3) = .ok w4) :
    w4.src = w3.src ∧ w4.self = w3.self ∧ w4.lifiApproval = w3.lifiApproval ∧
    (∀ u, u ≠ owner → u ≠ recv → w4.balances token u = w3.balances token u) := by
  by_cases hp : 0 < amt
  · rw [if_pos hp, erc20Transfer] at h
    split_ifs at h with hc
    · injection h with h
      subst h
      refine ⟨rfl, rfl, rfl, ?_⟩
      intro u hu1 hu2
      simp [upd2, hu1, hu2]
  · rw [if_neg hp] at h
    injection h with h
    subst h
    exact ⟨rfl, rfl, rfl, fun _ _ _ => rfl⟩

/-- Field bookkeeping of the storage writes `liquidate` performs before
any token call: marking the user dead and zeroing the per-token
deposit. -/
theorem srcAfterLiq_fields (s s2 : SourceState) (user token : Nat)
    (h : (if 0 < s.userDeposits user token then
        { (if s.isDead user then s else { s with isDead := upd s.isDead user true }) with
          userDeposits :=
            upd2 (if s.isDead user then s
              else { s with isDead := upd s.isDead user true }).userDeposits user token 0 }
      else (if s.isDead user then s
        else { s with isDead := upd s.isDead user true })) = s2) :
    s2.lastHeartbeat = s.lastHeartbeat ∧
    s2.inactivityPeriods = s.inactivityPeriods ∧
    s2.isRegistered = s.isRegistered ∧
    s2.beneficiaries = s.beneficiaries ∧
    (∀ x, s2.isDead x = (s.isDead x || decide (x = user))) ∧
    s2.userDeposits user token = 0 := by
  subst h
  refine ⟨?_, ?_, ?_, ?_, ?_, ?_⟩
  · split_ifs <;> rfl
  · split_ifs <;> rfl
  · split_ifs <;> rfl
  · split_ifs <;> rfl
  · intro x
    split_ifs with h1 h2 h3 <;>
      by_cases hx : x = user <;>
        simp_all [upd]
  · split_ifs with h1 h2 h3 <;> simp_all [upd2]

/-- State inversion of a successful `liquidate` call: the user's
heartbeat, period, registration and beneficiary are untouched, the dead
flag is set, the internal deposit for the token is zeroed, and the
wallet-allowance portion has left the user's wallet. -/
theorem liquidate_ok_state {sender user token : Nat} {data : List (Fin 256)}
    {now : Nat} {bridgeOk : Bool} {w : World} {res : World × LiqInfo}
    (h : liquidate sender user token data now bridgeOk w = .ok res) :
    res.1.src.lastHeartbeat = w.src.lastHeartbeat ∧
    res.1.src.inactivityPeriods = w.src.inactivityPeriods ∧
    res.1.src.isRegistered = w.src.isRegistered ∧
    res.1.src.beneficiaries = w.src.beneficiaries ∧
    (∀ x, res.1.src.isDead x = (w.src.isDead x || decide (x = user))) ∧
    res.1.src.userDeposits user token = 0 ∧
    (user ≠ w.self → user ≠ sender →
      res.1.balances token user = w.balances token user - allowancePortion w token user) := by
  simp only [liquidate] at h
  by_cases h1 : sender ≠ w.src.watchtower
  · rw [if_pos h1] at h; cases h
  rw [if_neg h1] at h
  by_cases h2 : ¬ w.src.isRegistered user = true
  · rw [if_pos h2] at h; cases h
  rw [if_neg h2] at h
  by_cases h3 : token = 0
  · rw [if_pos h3] at h; cases h
  rw [if_neg h3] at h
  by_cases h4 : now ≤ w.src.lastHeartbeat user + w.src.inactivityPeriods user
  · rw [if_pos h4] at h; cases h
  rw [if_neg h4] at h
  by_cases hval : 68 ≤ data.length ∧ beneficiaryFound data (w.src.beneficiaries user) = false
  · rw [if_pos hval] at h; cases h
  rw [if_neg hval] at h
  by_cases hamt : w.src.userDeposits user token +
      (if w.allowances token user < w.balances token user then w.allowances token user
       else w.balances token user) = 0
  · rw [if_pos hamt] at h; cases h
  rw [if_neg hamt] at h
  generalize hA : (if w.allowances token user < w.balances token user
      then w.allowances token user else w.balances token user) = A at h
  generalize hs2 : (if 0 < w.src.userDeposits user token then
      { (if w.src.isDead user then w.src else { w.src with isDead := upd w.src.isDead user true }) with
        userDeposits :=
          upd2 (if w.src.isDead user then w.src
            else { w.src with isDead := upd w.src.isDead user true }).userDeposits user token 0 }
    else (if w.src.isDead user then w.src
      else { w.src with isDead := upd w.src.isDead user true })) = s2 at h
  generalize hS1 : (if 0 < A then erc20TransferFrom token user w.self A { w with src := s2 }
      else Except.ok { w with src := s2 }) = S1 at h
  split at h
  · cases h
  rename_i w3
  generalize hS2 : (if 0 < (w.src.userDeposits user token + A) * LIQUIDATION_FEE_BPS / BPS_DENOMINATOR
      then erc20Transfer token w.self sender
        ((w.src.userDeposits user token + A) * LIQUIDATION_FEE_BPS / BPS_DENOMINATOR) w3
      else Except.ok w3) = S2 at h
  split at h
  · cases h
  rename_i w4
  split at h
  · cases h
    obtain ⟨e3s, e3self, e3app, e3bal, e3balr⟩ := stageTF_inv hS1
    obtain ⟨e4s, e4self, e4app, e4bal⟩ := stageT_inv hS2
    obtain ⟨f1, f2, f3, f4, f5, f6⟩ := srcAfterLiq_fields w.src s2 user token hs2
    refine ⟨?_, ?_, ?_, ?_, ?_, ?_, ?_⟩
    · show w4.src.lastHeartbeat = w.src.lastHeartbeat
      rw [e4s, e3s]
      exact f1
    · show w4.src.inactivityPeriods = w.src.inactivityPeriods
      rw [e4s, e3s]
      exact f2
    · show w4.src.isRegistered = w.src.isRegistered
      rw [e4s, e3s]
      exact f3
    · show w4.src.beneficiaries = w.src.beneficiaries
      rw [e4s, e3s]
      exact f4
    · intro x
      show w4.src.isDead x = (w.src.isDead x || decide (x = user))
      rw [e4s, e3s]
      exact f5 x
    · show w4.src.userDeposits user token = 0
      rw [e4s, e3s]
      exact f6
    · intro h5 h6
      show w4.balances token user = w.balances token user - allowancePortion w token user
      rw [e4bal user h5 h6, e3bal h5, ← hA]
      rfl
  · cases h

/-- The watchtower fee never exceeds the amount it is carved from. -/
theorem liqFee_le (a : Nat) : a * LIQUIDATION_FEE_BPS / BPS_DENOMINATOR ≤ a := by
  apply Nat.div_le_of_le_mul'
  calc a * LIQUIDATION_FEE_BPS
      ≤ a * BPS_DENOMINATOR :=
        Nat.mul_le_mul le_rfl (by norm_num [LIQUIDATION_FEE_BPS, BPS_DENOMINATOR])
    _ = BPS_DENOMINATOR * a := Nat.mul_comm a BPS_DENOMINATOR

/-- Sufficiency: under the guards of `liquidate` — watchtower caller,
registered user, nonzero token, expired deadline, passing payload scan,
nonzero aggregate — plus a contract solvent for the internal deposit and
a succeeding bridge call, `liquidate` succeeds.  No assumption is made
about the user's dead flag. -/
theorem liquidate_succeeds (sender user token : Nat) (data : List (Fin 256))
    (now : Nat) (bridgeOk : Bool) (w : World)
    (hsend : sender = w.src.watchtower)
    (hreg : w.src.isRegistered user = true)
    (htok : token ≠ 0)
    (htime : w.src.lastHeartbeat user + w.src.inactivityPeriods user < now)
    (hvalid : ¬ (68 ≤ data.length ∧ beneficiaryFound data (w.src.beneficiaries user) = false))
    (hamt : w.src.userDeposits user token + allowancePortion w token user ≠ 0)
    (huser : user ≠ w.self)
    (hback : w.src.userDeposits user token ≤ w.balances token w.self)
    (hbr : bridgeOk = true) :
    (liquidate sender user token data now bridgeOk w).isOk = true := by
  have hamt' : ¬ (w.src.userDeposits user token +
      (if w.allowances token user < w.balances token user then w.allowances token user
       else w.balances token user) = 0) := hamt
  simp only [liquidate]
  rw [if_neg (by simp [hsend]), if_neg (by simp [hreg]), if_neg htok,
    if_neg (by omega), if_neg hvalid, if_neg hamt']
  generalize hs2 : (if 0 < w.src.userDeposits user token then
      { (if w.src.isDead user then w.src else { w.src with isDead := upd w.src.isDead user true }) with
        userDeposits :=
          upd2 (if w.src.isDead user then w.src
            else { w.src with isDead := upd w.src.isDead user true }).userDeposits user token 0 }
    else (if w.src.isDead user then w.src
      else { w.src with isDead := upd w.src.isDead user true })) = s2
  generalize hA : (if w.allowances token user < w.balances token user
      then w.allowances token user else w.balances token user) = A
  have hAle : A ≤ w.allowances token user ∧ A ≤ w.balances token user := by
    rw [← hA]
    constructor <;> (split_ifs <;> omega)
  split
  · rename_i e heq
    exfalso
    by_cases hall : 0 < A
    · rw [if_pos hall, erc20TransferFrom] at heq
      split_ifs at heq with hc
    · rw [if_neg hall] at heq
      cases heq
  · rename_i w3 heq
    obtain ⟨e3s, e3self, e3app, e3bal, e3balr⟩ := stageTF_inv heq
    split
    · rename_i e heq2
      exfalso
      by_cases hfee : 0 < (w.src.userDeposits user token + A) * LIQUIDATION_FEE_BPS / BPS_DENOMINATOR
      · rw [if_pos hfee, erc20Transfer] at heq2
        split_ifs at heq2 with hc2
        apply hc2
        have hb3 : w3.balances token w.self = w.balances token w.self + A := e3balr huser
        rw [hb3]
        have hfl := liqFee_le (w.src.userDeposits user token + A)
        omega
      · rw [if_neg hfee] at heq2
        cases heq2
    · rw [if_pos hbr]
      rfl

end Lazarus

namespace Lazarus

theorem erc20TransferFrom_ok_src {token owner recv amt : Nat} {w w' : World}
    (h : erc20TransferFrom token owner recv amt w = .ok w') :
    w'.src = w.src ∧ w'.self = w.self := by
  rw [erc20TransferFrom] at h
  split_ifs at h
  injection h with h
  subst h
  exact ⟨rfl, rfl⟩

theorem erc20Transfer_ok_src {token owner recv amt : Nat} {w w' : World}
    (h : erc20Transfer token owner recv amt w = .ok w') :
    w'.src = w.src ∧ w'.self = w.self := by
  rw [erc20Transfer] at h
  split_ifs at h
  injection h with h
  subst h
  exact ⟨rfl, rfl⟩

/-- Per-user bookkeeping of every successful external call: registration
is never revoked, an unregistered user's heartbeat and period stay at
their defaults, the dead flag never reverts, and `lastHeartbeat` is
either untouched or set to the block timestamp of the call. -/
theorem execOp_ok_user_inv {now : Nat} {op : Op} {w w' : World}
    (h : execOp now op w = .ok w') (u : Nat) :
    (w.src.isRegistered u = true → w'.src.isRegistered u = true) ∧
    (w.src.isRegistered u = false → w'.src.isRegistered u = false →
      w'.src.lastHeartbeat u = w.src.lastHeartbeat u ∧
      w'.src.inactivityPeriods u = w.src.inactivityPeriods u) ∧
    (w.src.isDead u = true → w'.src.isDead u = true) ∧
    (w'.src.lastHeartbeat u = w.src.lastHeartbeat u ∨ w'.src.lastHeartbeat u = now) ∧
    (w'.src.isDead u = w.src.isDead u ∨
      ∃ sender token swapData bridgeOk, op = Op.liquidate sender u token swapData bridgeOk) := by
  cases op with
  | register sender ben period =>
    rw [execOp, register] at h
    split_ifs at h with hb1 hb2 hp hr
    injection h with h
    subst h
    refine ⟨?_, ?_, fun hd => hd, ?_, Or.inl rfl⟩
    · intro hru
      by_cases hx : u = sender <;> simp [upd, hx, hru]
    · intro hru hru'
      by_cases hx : u = sender
      · subst hx
        simp [upd] at hru'
      · simp [upd, hx]
    · by_cases hx : u = sender
      · subst hx
        right
        simp [upd]
      · left
        simp [upd, hx]
  | updateInactivityPeriod sender period =>
    rw [execOp, updateInactivityPeriod] at h
    split_ifs at h with hr hd hp
    injection h with h
    subst h
    refine ⟨fun hru => hru, ?_, fun hd => hd, Or.inl rfl, Or.inl rfl⟩
    intro hru hru'
    by_cases hx : u = sender
    · subst hx
      rw [hru] at hr
      cases hr
    · simp [upd, hx]
  | updateBeneficiary sender ben =>
    rw [execOp, updateBeneficiary] at h
    split_ifs at h with hr hd hb1 hb2
    injection h with h
    subst h
    exact ⟨fun hru => hru, fun _ _ => ⟨rfl, rfl⟩, fun hd => hd, Or.inl rfl, Or.inl rfl⟩
  | ping sender =>
    rw [execOp, ping] at h
    split_ifs at h with hr hd
    injection h with h
    subst h
    refine ⟨fun hru => hru, ?_, fun hd => hd, ?_, Or.inl rfl⟩
    · intro hru hru'
      by_cases hx : u = sender
      · subst hx
        rw [hru] at hr
        cases hr
      · simp [upd, hx]
    · by_cases hx : u = sender
      · subst hx
        right
        simp [upd]
      · left
        simp [upd, hx]
  | pingFor sender user =>
    rw [execOp, pingFor] at h
    split_ifs at h with hw hr hd
    injection h with h
    subst h
    refine ⟨fun hru => hru, ?_, fun hd => hd, ?_, Or.inl rfl⟩
    · intro hru hru'
      by_cases hx : u = user
      · subst hx
        rw [hru] at hr
        cases hr
      · simp [upd, hx]
    · by_cases hx : u = user
      · subst hx
        right
        simp [upd]
      · left
        simp [upd, hx]
  | depositFunds sender token amount =>
    rw [execOp, depositFunds] at h
    split_ifs at h with hr hd ht ha
    split at h
    · cases h
    rename_i w1 heq
    obtain ⟨hsrc, hself⟩ := erc20TransferFrom_ok_src heq
    injection h with h
    subst h
    refine ⟨?_, ?_, ?_, ?_, Or.inl (by simp [hsrc])⟩
    · intro hru
      simp [hsrc, hru]
    · intro hru hru'
      by_cases hx : u = sender
      · subst hx
        rw [hru] at hr
        cases hr
      · simp [upd, hx, hsrc]
    · intro hdu
      simp [hsrc, hdu]
    · by_cases hx : u = sender
      · subst hx
        right
        simp [upd]
      · left
        simp [upd, hx, hsrc]
  | withdrawFunds sender token amount =>
    simp only [execOp, withdrawFunds] at h
    split_ifs at h with hr hd ht ha hdep
    split at h
    · cases h
    rename_i w2 heq
    obtain ⟨hsrc, hself⟩ := erc20Transfer_ok_src heq
    injection h with h
    subst h
    refine ⟨?_, ?_, ?_, ?_, Or.inl (by simp [hsrc])⟩
    · intro hru
      simp [hsrc, hru]
    · intro hru hru'
      by_cases hx : u = sender
      · subst hx
        rw [hru] at hr
        cases hr
      · simp [upd, hx, hsrc]
    · intro hdu
      simp [hsrc, hdu]
    · by_cases hx : u = sender
      · subst hx
        right
        simp [upd]
      · left
        simp [upd, hx, hsrc]
  | liquidate sender user token swapData bridgeOk =>
    rw [execOp] at h
    cases hres : liquidate sender user token swapData now bridgeOk w with
    | error e =>
      rw [hres] at h
      simp [Except.map] at h
    | ok res =>
      rw [hres] at h
      simp only [Except.map] at h
      injection h with h
      obtain ⟨f1, f2, f3, f4, f5, f6, f7⟩ := liquidate_ok_state hres
      subst h
      refine ⟨?_, ?_, ?_, ?_, ?_⟩
      · intro hru
        rw [f3, hru]
      · intro hru hru'
        rw [f1, f2]
        exact ⟨rfl, rfl⟩
      · intro hdu
        rw [f5 u, hdu]
        rfl
      · left
        rw [f1]
      · by_cases hx : u = user
        · subst hx
          exact Or.inr ⟨sender, token, swapData, bridgeOk, rfl⟩
        · left
          rw [f5 u]
          simp [hx]

end Lazarus

namespace Lazarus

/-- Reachability invariant: a user that has never registered still has
the Solidity default `lastHeartbeat = 0` and `inactivityPeriods = 0`. -/
theorem unregistered_defaults {w : World} (hw : Reachable w) (u : Nat)
    (h : w.src.isRegistered u = false) :
    w.src.lastHeartbeat u = 0 ∧ w.src.inactivityPeriods u = 0 := by
  induction hw with
  | init self wt lifi bal alw apv hwt hlifi => exact ⟨rfl, rfl⟩
  | step now op hw ih =>
    rename_i w0
    cases hex : execOp now op w0 with
    | error e =>
      simp only [applyOp, hex] at h ⊢
      exact ih h
    | ok w2 =>
      simp only [applyOp, hex] at h ⊢
      obtain ⟨i1, i2, i3, i4, i5⟩ := execOp_ok_user_inv hex u
      have hwu : w0.src.isRegistered u = false := by
        cases hb : w0.src.isRegistered u
        · rfl
        · rw [i1 hb] at h
          cases h
      obtain ⟨e1, e2⟩ := i2 hwu h
      rw [e1, e2]
      exact ih hwu
  | env bal alw apv hw ih =>
    exact ih h

/-- One call never decreases `lastHeartbeat` when the block timestamp is
at or past the stored heartbeat, and leaves it bounded by the block
timestamp. -/
theorem applyOp_lastHeartbeat_mono {w : World} {now : Nat} {op : Op} {u : Nat}
    (hb : w.src.lastHeartbeat u ≤ now) :
    w.src.lastHeartbeat u ≤ (applyOp now op w).src.lastHeartbeat u ∧
    (applyOp now op w).src.lastHeartbeat u ≤ now := by
  cases hex : execOp now op w with
  | error e =>
    simp only [applyOp, hex]
    exact ⟨le_rfl, hb⟩
  | ok w2 =>
    simp only [applyOp, hex]
    rcases (execOp_ok_user_inv hex u).2.2.2.1 with he | he <;> rw [he]
    · exact ⟨le_rfl, hb⟩
    · exact ⟨hb, le_rfl⟩

/-- A sequence of calls at given block timestamps. -/
def runTrace (w : World) (tr : List (Nat × Op)) : World :=
  tr.foldl (fun acc p => applyOp p.1 p.2 acc) w

theorem runTrace_lastHeartbeat_mono (tr : List (Nat × Op)) (w : World) (u t0 : Nat)
    (hb : w.src.lastHeartbeat u ≤ t0)
    (hch : List.Chain (· ≤ ·) t0 (tr.map Prod.fst)) :
    w.src.lastHeartbeat u ≤ (runTrace w tr).src.lastHeartbeat u ∧
    (runTrace w tr).src.lastHeartbeat u ≤ (tr.map Prod.fst).foldl max t0 := by
  induction tr generalizing t0 w with
  | nil => exact ⟨le_rfl, hb⟩
  | cons p rest ih =>
    obtain ⟨hle, hch'⟩ := List.chain_cons.mp hch
    have hstep := @applyOp_lastHeartbeat_mono w p.1 p.2 u (le_trans hb hle)
    have hrec := ih (applyOp p.1 p.2 w) p.1 hstep.2 hch'
    constructor
    · exact le_trans hstep.1 hrec.1
    · have hmax : max t0 p.1 = p.1 := max_eq_right hle
      show (runTrace (applyOp p.1 p.2 w) rest).src.lastHeartbeat u ≤
        (rest.map Prod.fst).foldl max (max t0 p.1)
      rw [hmax]
      exact hrec.2

end Lazarus

namespace Lazarus

/-! ### Concrete evaluation worlds for witnesses and counterexamples -/

/-- A contract state with one registered user: user `7`, beneficiary `9`,
inactivity period `30`, an internal deposit of `100` of token `5`. -/
def exSource : SourceState :=
  { initialSource 2 3 with
    beneficiaries := upd (fun _ => 0) 7 9
    inactivityPeriods := upd (fun _ => 0) 7 30
    isRegistered := upd (fun _ => false) 7 true
    userDeposits := upd2 (fun _ _ => 0) 7 5 100 }

/-- The world around `exSource`: the contract (address `1`) holds the
`100` tokens backing the internal deposit; watchtower is address `2`. -/
def exWorld : World :=
  { self := 1
    src := exSource
    balances := upd2 (fun _ _ => 0) 5 1 100
    allowances := fun _ _ => 0
    lifiApproval := fun _ => 0 }

/-- `exWorld` after user `7` has been marked dead. -/
def exWorldDead : World :=
  { exWorld with src := { exSource with isDead := upd (fun _ => false) 7 true } }

/-- The freshly deployed world used with `Reachable.init`. -/
def exInitWorld : World :=
  ⟨1, initialSource 2 3, fun _ _ => 0, fun _ _ => 0, fun _ => 0⟩

/-- The result of the successful example liquidation (empty payload,
watchtower caller, past deadline). -/
def exLiqRes : World × LiqInfo :=
  ((liquidate 2 7 5 [] 100 true exWorld).toOption).get (by rfl)

/-- `executeLiquidation`'s aggregate (liquidator.ts):
`walletAmount = allowance < balance ? allowance : balance`,
`amountToLiquidate = walletAmount + depositedAmount`. -/
def executorAmountToLiquidate (allowance balance depositedAmount : Nat) : Nat :=
  (if allowance < balance then allowance else balance) + depositedAmount

/-- C1 (counterexample): the claim demands rejection for *every* payload
whose scanned prefix does not contain the beneficiary, including
payloads shorter than 68 bytes.  The code only runs the scan when
`_swapData.length >= 68`: with the empty payload the beneficiary occurs
nowhere, yet the call succeeds and sweeps the 100-token deposit. -/
theorem C1_counterexample :
    beneficiaryFound [] (exWorld.src.beneficiaries 7) = false ∧
    ([] : List (Fin 256)).length < 68 ∧
    liquidate 2 7 5 [] 100 true exWorld = .ok exLiqRes ∧
    exLiqRes.2.amountToTransfer = 100 ∧
    exLiqRes.1.src.userDeposits 7 5 = 0 :=
  ⟨rfl, by decide, rfl, rfl, rfl⟩

/-- C1 (amended): restricted to payloads of length at least 68 — the only
ones the contract scans — a payload whose scanned window (byte offsets
`4 ≤ i`, `i + 20 ≤ min length 200`) nowhere contains the beneficiary's 20
raw big-endian bytes makes `liquidate` revert, and the transactional
wrapper leaves the world exactly as before. -/
theorem C1_amended_scan_reject (sender user token : Nat) (data : List (Fin 256))
    (now : Nat) (bridgeOk : Bool) (w : World)
    (hben : w.src.beneficiaries user < 2 ^ 160)
    (hlen : 68 ≤ data.length)
    (hnf : ∀ i, i < 200 → 4 ≤ i → i + 20 ≤ min data.length 200 →
      (data.drop i).take 20 ≠ bytesBE 20 (w.src.beneficiaries user)) :
    (liquidate sender user token data now bridgeOk w).isOk = false ∧
    applyOp now (Op.liquidate sender user token data bridgeOk) w = w := by
  have hbf : beneficiaryFound data (w.src.beneficiaries user) = false := by
    cases hb : beneficiaryFound data (w.src.beneficiaries user) with
    | false => rfl
    | true =>
      obtain ⟨i, h4, h20, hsl⟩ := (beneficiaryFound_iff data _ hben).1 hb
      exact absurd hsl (hnf i (by omega) h4 h20)
  constructor
  · cases hres : liquidate sender user token data now bridgeOk w with
    | error e => rfl
    | ok res => exact absurd ⟨hlen, hbf⟩ (liquidate_ok_not_rejected hres)
  · cases hres : liquidate sender user token data now bridgeOk w with
    | error e => simp [applyOp, execOp, hres, Except.map]
    | ok res => exact absurd ⟨hlen, hbf⟩ (liquidate_ok_not_rejected hres)

set_option maxRecDepth 8000 in
/-- Witness for `C1_amended_scan_reject`: a 68-byte all-zero payload
against beneficiary `9`. -/
theorem C1_amended_witness :
    (liquidate 2 7 5 (List.replicate 68 (0 : Fin 256)) 100 true exWorld).isOk = false :=
  (C1_amended_scan_reject 2 7 5 (List.replicate 68 (0 : Fin 256)) 100 true exWorld
    (by decide)
    (by decide)
    (by decide)).1

/-- C3 (confirmed): `liquidate` is atomic on error.  A failed delegated
route-execution call propagates (`bridgeOk = false` forces a revert, the
code bubbles the returndata or `BridgeCallFailed` rather than swallowing
it), a failed beneficiary scan on a scannable payload forces a revert,
and any revert leaves the entire world — Ledger storage, deposits, dead
flag, heartbeat, token balances — exactly as before the call. -/
theorem C3_liquidate_atomic_on_error :
    (∀ (sender user token : Nat) (data : List (Fin 256)) (now : Nat) (w : World),
      (liquidate sender user token data now false w).isOk = false) ∧
    (∀ (sender user token : Nat) (data : List (Fin 256)) (now : Nat)
        (bridgeOk : Bool) (w : World),
      68 ≤ data.length →
      beneficiaryFound data (w.src.beneficiaries user) = false →
      (liquidate sender user token data now bridgeOk w).isOk = false) ∧
    (∀ (now : Nat) (op : Op) (w : World) (e : SrcError),
      execOp now op w = .error e → applyOp now op w = w) := by
  refine ⟨?_, ?_, ?_⟩
  · intro sender user token data now w
    cases hres : liquidate sender user token data now false w with
    | error e => rfl
    | ok res =>
      have hbr := (liquidate_ok_guards hres).2.2.2.2.1
      cases hbr
  · intro sender user token data now bridgeOk w hlen hbf
    cases hres : liquidate sender user token data now bridgeOk w with
    | error e => rfl
    | ok res => exact absurd ⟨hlen, hbf⟩ (liquidate_ok_not_rejected hres)
  · intro now op w e h
    simp [applyOp, h]

/-- Witness for `C3_liquidate_atomic_on_error`: the example liquidation
with a failing bridge call reverts, a scanned 68-byte payload without the
beneficiary reverts, and a reverting call (ping by the unregistered user
`8`) leaves the world untouched. -/
theorem C3_witness :
    (liquidate 2 7 5 [] 100 false exWorld).isOk = false ∧
    (liquidate 2 7 5 (List.replicate 68 (0 : Fin 256)) 100 true exWorld).isOk = false ∧
    applyOp 5 (Op.ping 8) exWorld = exWorld :=
  ⟨C3_liquidate_atomic_on_error.1 2 7 5 [] 100 exWorld,
   C3_liquidate_atomic_on_error.2.1 2 7 5 (List.replicate 68 (0 : Fin 256)) 100 true exWorld
     (by decide) (by decide),
   C3_liquidate_atomic_on_error.2.2 5 (Op.ping 8) exWorld SrcError.NotRegistered rfl⟩

/-- C4 (confirmed): a successful `liquidate` moves exactly
`min(walletAllowance, walletBalance) + internalDeposit`, read at call
time: that is the reported sweep amount, the internal deposit is zeroed
and the wallet loses exactly the `min` portion; a zero aggregate makes
the call revert (`InsufficientAllowance`).  The off-chain executor
computes the identical formula. -/
theorem C4_liquidate_amount :
    (∀ (sender user token : Nat) (data : List (Fin 256)) (now : Nat)
        (bridgeOk : Bool) (w : World) (res : World × LiqInfo),
      liquidate sender user token data now bridgeOk w = .ok res →
      res.2.amountToTransfer =
        min (w.allowances token user) (w.balances token user) +
          w.src.userDeposits user token ∧
      res.1.src.userDeposits user token = 0 ∧
      (user ≠ w.self → user ≠ sender →
        res.1.balances token user =
          w.balances token user -
            min (w.allowances token user) (w.balances token user))) ∧
    (∀ (sender user token : Nat) (data : List (Fin 256)) (now : Nat)
        (bridgeOk : Bool) (w : World),
      min (w.allowances token user) (w.balances token user) +
          w.src.userDeposits user token = 0 →
      (liquidate sender user token data now bridgeOk w).isOk = false) ∧
    (∀ allowance balance depositedAmount : Nat,
      executorAmountToLiquidate allowance balance depositedAmount =
        min allowance balance + depositedAmount) := by
  refine ⟨?_, ?_, ?_⟩
  · intro sender user token data now bridgeOk w res hres
    obtain ⟨g1, g2, g3, g4, g5, g6, g7⟩ := liquidate_ok_guards hres
    obtain ⟨f1, f2, f3, f4, f5, f6, f7⟩ := liquidate_ok_state hres
    refine ⟨?_, f6, ?_⟩
    · rw [g7]
      show liqAmount w user token = _
      rw [liqAmount, allowancePortion_eq_min, Nat.add_comm]
    · intro h5 h6
      rw [f7 h5 h6, allowancePortion_eq_min]
  · intro sender user token data now bridgeOk w hz
    cases hres : liquidate sender user token data now bridgeOk w with
    | error e => rfl
    | ok res =>
      have hne := (liquidate_ok_guards hres).2.2.2.2.2.1
      rw [liqAmount, allowancePortion_eq_min] at hne
      omega
  · intro allowance balance depositedAmount
    rw [executorAmountToLiquidate, min_def]
    split_ifs <;> omega

/-- Witness for `C4_liquidate_amount` on the example world: the sweep is
the full `min(0, 0) + 100 = 100` deposit, and user `8` (nothing to
sweep) makes the call revert. -/
theorem C4_witness :
    exLiqRes.2.amountToTransfer =
      min (exWorld.allowances 5 7) (exWorld.balances 5 7) +
        exWorld.src.userDeposits 7 5 ∧
    exLiqRes.2.amountToTransfer = 100 ∧
    (liquidate 2 8 5 [] 100 true exWorld).isOk = false ∧
    executorAmountToLiquidate 3 10 5 = min 3 10 + 5 :=
  ⟨(C4_liquidate_amount.1 2 7 5 [] 100 true exWorld exLiqRes rfl).1, rfl,
   C4_liquidate_amount.2.1 2 8 5 [] 100 true exWorld (by decide),
   C4_liquidate_amount.2.2 3 10 5⟩

/-- C5 (confirmed): the fee split is exact in integer arithmetic — for a
successful call `fee = floor(amount * 100 / 10000)` (`Nat` division is
floor division), `bridged = amount - fee`, and `fee + bridged = amount`
with no rounding loss; the identity holds for every `Nat` amount, which
subsumes every `uint256` value. -/
theorem C5_fee_split_exact :
    (∀ amountToLiquidate : Nat,
      amountToLiquidate * LIQUIDATION_FEE_BPS / BPS_DENOMINATOR +
        (amountToLiquidate -
          amountToLiquidate * LIQUIDATION_FEE_BPS / BPS_DENOMINATOR) =
        amountToLiquidate) ∧
    (∀ (sender user token : Nat) (data : List (Fin 256)) (now : Nat)
        (bridgeOk : Bool) (w : World) (res : World × LiqInfo),
      liquidate sender user token data now bridgeOk w = .ok res →
      res.2.fee = res.2.amountToTransfer * 100 / 10000 ∧
      res.2.bridged = res.2.amountToTransfer - res.2.fee ∧
      res.2.fee + res.2.bridged = res.2.amountToTransfer) := by
  constructor
  · intro a
    have h := liqFee_le a
    omega
  · intro sender user token data now bridgeOk w res hres
    have g7 := (liquidate_ok_guards hres).2.2.2.2.2.2
    rw [g7]
    refine ⟨rfl, rfl, ?_⟩
    have h := liqFee_le (liqAmount w user token)
    show liqAmount w user token * LIQUIDATION_FEE_BPS / BPS_DENOMINATOR +
      (liqAmount w user token -
        liqAmount w user token * LIQUIDATION_FEE_BPS / BPS_DENOMINATOR) =
      liqAmount w user token
    omega

/-- Witness for `C5_fee_split_exact`: the example liquidation of 100
tokens yields `fee = 1`, `bridged = 99`, summing exactly to 100. -/
theorem C5_witness :
    exLiqRes.2.fee + exLiqRes.2.bridged = exLiqRes.2.amountToTransfer ∧
    exLiqRes.2.fee = 1 ∧ exLiqRes.2.bridged = 99 ∧
    100 * LIQUIDATION_FEE_BPS / BPS_DENOMINATOR +
      (100 - 100 * LIQUIDATION_FEE_BPS / BPS_DENOMINATOR) = 100 :=
  ⟨(C5_fee_split_exact.2 2 7 5 [] 100 true exWorld exLiqRes rfl).2.2, rfl, rfl,
   C5_fee_split_exact.1 100⟩

end Lazarus

namespace Lazarus

/-- C6 (confirmed): for every reachable state and every time,
`checkUserStatus` returns
`canLiquidate = registered && now > lastHeartbeat + period` and
`timeRemaining = max(0, deadline - now)`.  The function never reads the
dead flag, so after a successful `liquidate` (which leaves
`lastHeartbeat`, the period and the registration untouched and sets
`dead = true` permanently) `canLiquidate` keeps evaluating by the same
formula and stays true. -/
theorem C6_checkStatus (w : World) (hw : Reachable w) (u now : Nat) :
    (checkUserStatus w.src u now).1 =
      (w.src.isRegistered u &&
        decide (w.src.lastHeartbeat u + w.src.inactivityPeriods u < now)) ∧
    ((checkUserStatus w.src u now).2 : Int) =
      max 0 ((w.src.lastHeartbeat u : Int) + (w.src.inactivityPeriods u : Int) - (now : Int)) := by
  cases hreg : w.src.isRegistered u with
  | false =>
    obtain ⟨hl, hp⟩ := unregistered_defaults hw u hreg
    rw [checkUserStatus, if_pos (by simp [hreg])]
    constructor
    · simp
    · simp [hl, hp]
  | true =>
    rw [checkUserStatus, if_neg (by simp [hreg])]
    by_cases hlt : w.src.lastHeartbeat u + w.src.inactivityPeriods u < now
    · rw [if_pos hlt]
      constructor
      · simp [hlt]
      · show ((0 : Nat) : Int) = _
        omega
    · rw [if_neg hlt]
      constructor
      · simp [hlt]
      · show ((w.src.lastHeartbeat u + w.src.inactivityPeriods u - now : Nat) : Int) = _
        omega

/-- Witness for `C6_checkStatus` at the freshly deployed world. -/
theorem C6_witness :
    (checkUserStatus exInitWorld.src 7 5).1 = false ∧
    (checkUserStatus exInitWorld.src 7 5).2 = 0 := by
  have h := C6_checkStatus exInitWorld
    (Reachable.init 1 2 3 (fun _ _ => 0) (fun _ _ => 0) (fun _ => 0)
      (by decide) (by decide)) 7 5
  constructor
  · rw [h.1]
    decide
  · have h2 : ((checkUserStatus exInitWorld.src 7 5).2 : Int) = 0 := by
      rw [h.2]
      decide
    exact_mod_cast h2

/-- C7 (confirmed): in every state the dead flag never reverts (so it
flips false→true at most once), it flips only through a successful
`liquidate` of that user, every liveness operation reverts while the
user is dead, and `liquidate` for further tokens keeps succeeding under
its usual guards — none of which mention the dead flag. -/
theorem C7_dead_flag (w : World) (now : Nat) (op : Op) (u : Nat) :
    (w.src.isDead u = true → (applyOp now op w).src.isDead u = true) ∧
    (w.src.isDead u = false → (applyOp now op w).src.isDead u = true →
      ∃ sender token swapData bridgeOk,
        op = Op.liquidate sender u token swapData bridgeOk) ∧
    (w.src.isDead u = true →
      (execOp now (Op.ping u) w).isOk = false ∧
      (∀ s, (execOp now (Op.pingFor s u) w).isOk = false) ∧
      (∀ t a, (execOp now (Op.depositFunds u t a) w).isOk = false) ∧
      (∀ t a, (execOp now (Op.withdrawFunds u t a) w).isOk = false) ∧
      (∀ b, (execOp now (Op.updateBeneficiary u b) w).isOk = false) ∧
      (∀ p, (execOp now (Op.updateInactivityPeriod u p) w).isOk = false)) ∧
    (∀ (sender token : Nat) (data : List (Fin 256)) (bridgeOk : Bool),
      sender = w.src.watchtower →
      w.src.isRegistered u = true →
      token ≠ 0 →
      w.src.lastHeartbeat u + w.src.inactivityPeriods u < now →
      ¬ (68 ≤ data.length ∧ beneficiaryFound data (w.src.beneficiaries u) = false) →
      w.src.userDeposits u token + allowancePortion w token u ≠ 0 →
      u ≠ w.self →
      w.src.userDeposits u token ≤ w.balances token w.self →
      bridgeOk = true →
      (liquidate sender u token data now bridgeOk w).isOk = true) := by
  refine ⟨?_, ?_, ?_, ?_⟩
  · intro hd
    cases hex : execOp now op w with
    | error e => simpa [applyOp, hex] using hd
    | ok w2 =>
      simp only [applyOp, hex]
      exact (execOp_ok_user_inv hex u).2.2.1 hd
  · intro hf ht
    cases hex : execOp now op w with
    | error e =>
      simp only [applyOp, hex] at ht
      rw [hf] at ht
      cases ht
    | ok w2 =>
      simp only [applyOp, hex] at ht
      rcases (execOp_ok_user_inv hex u).2.2.2.2 with he | hop
      · rw [he, hf] at ht
        cases ht
      · exact hop
  · intro hd
    refine ⟨?_, ?_, ?_, ?_, ?_, ?_⟩
    · cases hcon : execOp now (Op.ping u) w with
      | error e => rfl
      | ok w' =>
        exfalso
        simp only [execOp, ping] at hcon
        split_ifs at hcon
    · intro s
      cases hcon : execOp now (Op.pingFor s u) w with
      | error e => rfl
      | ok w' =>
        exfalso
        simp only [execOp, pingFor] at hcon
        split_ifs at hcon
    · intro t a
      cases hcon : execOp now (Op.depositFunds u t a) w with
      | error e => rfl
      | ok w' =>
        exfalso
        simp only [execOp, depositFunds] at hcon
        split_ifs at hcon
    · intro t a
      cases hcon : execOp now (Op.withdrawFunds u t a) w with
      | error e => rfl
      | ok w' =>
        exfalso
        simp only [execOp, withdrawFunds] at hcon
        split_ifs at hcon
    · intro b
      cases hcon : execOp now (Op.updateBeneficiary u b) w with
      | error e => rfl
      | ok w' =>
        exfalso
        simp only [execOp, updateBeneficiary] at hcon
        split_ifs at hcon
    · intro p
      cases hcon : execOp now (Op.updateInactivityPeriod u p) w with
      | error e => rfl
      | ok w' =>
        exfalso
        simp only [execOp, updateInactivityPeriod] at hcon
        split_ifs at hcon
  · intro sender token data bridgeOk h1 h2 h3 h4 h5 h6 h7 h8 h9
    exact liquidate_succeeds sender u token data now bridgeOk w h1 h2 h3 h4 h5 h6 h7 h8 h9

/-- Witness for `C7_dead_flag`: on the example world with user `7`
already dead, a ping keeps the flag, the ping reverts, and a liquidate
of the deposited token still succeeds. -/
theorem C7_witness :
    (applyOp 50 (Op.ping 7) exWorldDead).src.isDead 7 = true ∧
    (execOp 50 (Op.ping 7) exWorldDead).isOk = false ∧
    (liquidate 2 7 5 [] 100 true exWorldDead).isOk = true :=
  ⟨(C7_dead_flag exWorldDead 50 (Op.ping 7) 7).1 rfl,
   ((C7_dead_flag exWorldDead 50 (Op.ping 7) 7).2.2.1 rfl).1,
   (C7_dead_flag exWorldDead 100 (Op.ping 7) 7).2.2.2 2 5 [] true rfl rfl
     (by decide) (by decide) (by decide) (by decide) (by decide) (by decide) rfl⟩

/-- C8 (confirmed): every successful `ping`, `pingFor`, `depositFunds`
and `withdrawFunds` sets the user's `lastHeartbeat` to the block
timestamp of the call, and along any trace of operations executed at
non-decreasing block timestamps `lastHeartbeat` never decreases (this
holds for every user and every operation, in particular while the user's
dead flag is false). -/
theorem C8_heartbeat_monotone :
    (∀ (now sender : Nat) (w w' : World),
      execOp now (Op.ping sender) w = .ok w' → w'.src.lastHeartbeat sender = now) ∧
    (∀ (now sender user : Nat) (w w' : World),
      execOp now (Op.pingFor sender user) w = .ok w' →
        w'.src.lastHeartbeat user = now) ∧
    (∀ (now sender token amount : Nat) (w w' : World),
      execOp now (Op.depositFunds sender token amount) w = .ok w' →
        w'.src.lastHeartbeat sender = now) ∧
    (∀ (now sender token amount : Nat) (w w' : World),
      execOp now (Op.withdrawFunds sender token amount) w = .ok w' →
        w'.src.lastHeartbeat sender = now) ∧
    (∀ (tr : List (Nat × Op)) (w : World) (u t0 : Nat),
      w.src.lastHeartbeat u ≤ t0 →
      List.Chain (· ≤ ·) t0 (tr.map Prod.fst) →
      w.src.lastHeartbeat u ≤ (runTrace w tr).src.lastHeartbeat u) := by
  refine ⟨?_, ?_, ?_, ?_, ?_⟩
  · intro now sender w w' h
    simp only [execOp, ping] at h
    split_ifs at h
    injection h with h
    subst h
    simp [upd]
  · intro now sender user w w' h
    simp only [execOp, pingFor] at h
    split_ifs at h
    injection h with h
    subst h
    simp [upd]
  · intro now sender token amount w w' h
    simp only [execOp, depositFunds] at h
    split_ifs at h
    split at h
    · cases h
    injection h with h
    subst h
    simp [upd]
  · intro now sender token amount w w' h
    simp only [execOp, withdrawFunds] at h
    split_ifs at h
    split at h
    · cases h
    injection h with h
    subst h
    simp [upd]
  · intro tr w u t0 hb hch
    exact (runTrace_lastHeartbeat_mono tr w u t0 hb hch).1

/-- Witness for `C8_heartbeat_monotone`: a ping at time `5` on the
example world sets `lastHeartbeat 7 = 5`, and the one-step trace is
monotone from bound `0`. -/
theorem C8_witness :
    (applyOp 5 (Op.ping 7) exWorld).src.lastHeartbeat 7 = 5 ∧
    exWorld.src.lastHeartbeat 7 ≤
      (runTrace exWorld [(5, Op.ping 7)]).src.lastHeartbeat 7 :=
  ⟨C8_heartbeat_monotone.1 5 7 exWorld (applyOp 5 (Op.ping 7) exWorld) rfl,
   C8_heartbeat_monotone.2.2.2.2 [(5, Op.ping 7)] exWorld 7 0 (by decide)
     (List.chain_cons.mpr ⟨by omega, List.Chain.nil⟩)⟩

end Lazarus

namespace Lazarus

/-! ### Relay and scanner claims -/

/-- The example heartbeat message. -/
def exHb : HeartbeatMsg := ⟨"I am alive", 1000, 5⟩

/-- A signature-validity oracle accepting the example signature
(`verifyTypedData` is a pure function of message, signature, signer and
chain id, so a signature valid once stays valid on resubmission). -/
def exSigOk : HeartbeatMsg → String → Nat → Nat → Bool := fun _ _ _ _ => true

/-- The cache after the first accepted example heartbeat. -/
def exStore1 : Store :=
  (heartbeatPost exSigOk 1 none 7 exHb "sig" 1000 111 (fun _ => none)).2

/-- C2 (counterexample): the claim says a naive replay of an
already-accepted heartbeat is rejected with no state change.  The relay
keeps no nonce state: the identical message and signature resubmitted 60
seconds later (still inside the 5-minute window) is accepted again and
overwrites the cache record. -/
theorem C2_counterexample :
    (heartbeatPost exSigOk 1 none 7 exHb "sig" 1000 111 (fun _ => none)).1 = .okAt 111 ∧
    ¬ (exHb.timestamp < 1060 - 300 ∨ 1060 + 300 < exHb.timestamp) ∧
    (heartbeatPost exSigOk 1 none 7 exHb "sig" 1060 222 exStore1).1 = .okAt 222 ∧
    (heartbeatPost exSigOk 1 none 7 exHb "sig" 1060 222 exStore1).2 7 ≠ exStore1 7 := by
  decide

/-- C2 (amended): once `POST /heartbeat` has accepted a message, a
resubmission of the identical message and signature is accepted again
whenever its timestamp is still inside the ±5-minute window of the new
arrival time — the cache record is overwritten last-writer-wins — and is
rejected with no state change only once the timestamp falls outside the
window. -/
theorem C2_amended_replay (sigOk : HeartbeatMsg → String → Nat → Nat → Bool)
    (chainId : Nat) (cp cp' : Option Nat) (addr : Nat) (msg : HeartbeatMsg)
    (sig : String) (t1 t2 : Int) (m1 m2 : Nat) (store s1 : Store)
    (h1 : heartbeatPost sigOk chainId cp addr msg sig t1 m1 store = (.okAt m1, s1)) :
    (¬ (msg.timestamp < t2 - 300 ∨ t2 + 300 < msg.timestamp) →
      (heartbeatPost sigOk chainId cp' addr msg sig t2 m2 s1).1 = .okAt m2 ∧
      ((heartbeatPost sigOk chainId cp' addr msg sig t2 m2 s1).2 addr).map
          CacheRecord.lastSeen = some m2) ∧
    ((msg.timestamp < t2 - 300 ∨ t2 + 300 < msg.timestamp) →
      heartbeatPost sigOk chainId cp' addr msg sig t2 m2 s1 = (.unauthorized, s1)) := by
  have hv1 : verifyYellowSignature sigOk msg sig addr chainId t1 = true := by
    cases hv : verifyYellowSignature sigOk msg sig addr chainId t1 with
    | true => rfl
    | false =>
      rw [heartbeatPost.eq_def, if_pos hv] at h1
      simp at h1
  have hsig : sigOk msg sig addr chainId = true := by
    rw [verifyYellowSignature] at hv1
    split_ifs at hv1
    exact hv1
  constructor
  · intro hfresh
    have hv2 : verifyYellowSignature sigOk msg sig addr chainId t2 = true := by
      rw [verifyYellowSignature, if_neg hfresh]
      exact hsig
    rw [heartbeatPost.eq_def, if_neg (by rw [hv2]; simp)]
    refine ⟨rfl, ?_⟩
    cases hs : s1 addr <;> simp [recordHeartbeat.eq_def, upd, hs]
  · intro hstale
    have hv2 : verifyYellowSignature sigOk msg sig addr chainId t2 = false := by
      rw [verifyYellowSignature, if_pos hstale]
    rw [heartbeatPost.eq_def, if_pos hv2]

/-- Witness for `C2_amended_replay` on the example heartbeat. -/
theorem C2_witness :
    (heartbeatPost exSigOk 1 none 7 exHb "sig" 1060 222 exStore1).1 = .okAt 222 ∧
    heartbeatPost exSigOk 1 none 7 exHb "sig" 2000 333 exStore1 = (.unauthorized, exStore1) :=
  ⟨((C2_amended_replay exSigOk 1 none none 7 exHb "sig" 1000 1060 111 222
      (fun _ => none) exStore1 rfl).1 (by decide)).1,
   (C2_amended_replay exSigOk 1 none none 7 exHb "sig" 1000 2000 111 333
      (fun _ => none) exStore1 rfl).2 (by decide)⟩

/-- The per-token loop results equal the map/any of the attempt oracle. -/
theorem processUserTokens_spec (attempt : Nat → Bool) (tokens : List Nat) :
    (processUserTokens attempt tokens).1 = tokens.map attempt ∧
    (processUserTokens attempt tokens).2 = tokens.any attempt := by
  suffices h : ∀ acc1 acc2,
      tokens.foldl (fun acc t => (acc.1 ++ [attempt t], acc.2 || attempt t)) (acc1, acc2) =
        (acc1 ++ tokens.map attempt, acc2 || tokens.any attempt) by
    rw [processUserTokens, h [] false]
    simp
  intro acc1 acc2
  induction tokens generalizing acc1 acc2 with
  | nil => simp
  | cons t ts ih =>
    simp only [List.foldl_cons, List.map_cons, List.any_cons, ih]
    simp [List.append_assoc, List.singleton_append, Bool.or_assoc]

/-- C9 (confirmed): after the scanner has processed all supported tokens
for one inactive user, the user's cache record is deleted exactly when at
least one token attempt succeeded; when none did, the record is left in
place unchanged, so the user remains monitored on later scans.  The
batch report contains one result per token. -/
theorem C9_cache_removal (store : Store) (user : Nat) (tokens : List Nat)
    (attempt : Nat → Bool) (r : CacheRecord) (hr : store user = some r) :
    ((runUserLiquidation store user tokens attempt).1 user = none ↔
      ∃ t ∈ tokens, attempt t = true) ∧
    ((¬ ∃ t ∈ tokens, attempt t = true) →
      (runUserLiquidation store user tokens attempt).1 user = some r) ∧
    (runUserLiquidation store user tokens attempt).2 = tokens.map attempt := by
  obtain ⟨h1, h2⟩ := processUserTokens_spec attempt tokens
  simp only [runUserLiquidation, h1, h2]
  by_cases hany : tokens.any attempt = true
  · rw [if_pos hany]
    rw [List.any_eq_true] at hany
    refine ⟨?_, ?_, trivial⟩
    · simp only [removeUser, upd, if_pos rfl]
      exact iff_of_true rfl hany
    · intro hno
      exact absurd hany hno
  · rw [if_neg hany]
    rw [List.any_eq_true] at hany
    refine ⟨?_, ?_, trivial⟩
    · rw [hr]
      constructor
      · intro hc
        cases hc
      · intro hc
        exact absurd hc hany
    · intro _
      exact hr

/-- The example cache with one tracked user `7`. -/
def exStoreC9 : Store :=
  fun a => if a = 7 then some ⟨1, "s", 604800, 1, 1⟩ else none

/-- Witness for `C9_cache_removal`: a pass where token `5` settles drops
the record; a pass where nothing settles keeps it. -/
theorem C9_witness :
    (runUserLiquidation exStoreC9 7 [5, 6] (fun t => t == 5)).1 7 = none ∧
    (runUserLiquidation exStoreC9 7 [5, 6] (fun _ => false)).1 7 =
      some ⟨1, "s", 604800, 1, 1⟩ :=
  ⟨(C9_cache_removal exStoreC9 7 [5, 6] (fun t => t == 5) ⟨1, "s", 604800, 1, 1⟩ rfl).1.mpr
      ⟨5, by simp, by decide⟩,
   (C9_cache_removal exStoreC9 7 [5, 6] (fun _ => false) ⟨1, "s", 604800, 1, 1⟩ rfl).2.1
      (by simp)⟩

/-- C10 (counterexample): the claim says an unregistered address gets the
default period `604800`.  The on-chain `getUserInfo` read does not throw
for an unregistered user — it returns the mapping default `0` — and the
handler stores that `0`, not `604800`. -/
theorem C10_counterexample :
    (getUserInfo (initialSource 2 3) 7).registered = false ∧
    (heartbeatPost exSigOk 1 (some ((getUserInfo (initialSource 2 3) 7).inactivityPeriod)) 7
        exHb "sig" 1000 111 (fun _ => none)).1 = .okAt 111 ∧
    (heartbeatPost exSigOk 1 (some ((getUserInfo (initialSource 2 3) 7).inactivityPeriod)) 7
        exHb "sig" 1000 111 (fun _ => none)).2 7 =
      some ⟨111, "sig", 0, 111, 111⟩ ∧
    (0 : Nat) ≠ 604800 := by
  decide

/-- C10 (amended): `POST /heartbeat` never requires on-chain
registration: every request passing signature verification succeeds and
upserts the cache record keyed by the address.  For a new user the
stored period is whatever the `getUserInfo` read returns (`0` for an
unregistered user); the default `604800` is used only when the read
itself throws (`chainPeriod = none`); an existing record's period is
carried forward. -/
theorem C10_amended_heartbeat_upsert (sigOk : HeartbeatMsg → String → Nat → Nat → Bool)
    (chainId : Nat) (cp : Option Nat) (addr : Nat) (msg : HeartbeatMsg)
    (sig : String) (nowSec : Int) (nowMs : Nat) (store : Store)
    (hv : verifyYellowSignature sigOk msg sig addr chainId nowSec = true) :
    (heartbeatPost sigOk chainId cp addr msg sig nowSec nowMs store).1 = .okAt nowMs ∧
    (heartbeatPost sigOk chainId cp addr msg sig nowSec nowMs store).2 addr =
      some ⟨nowMs, sig,
        (match store addr with
         | some r => r.inactivityPeriod
         | none => cp.getD 604800),
        (match store addr with
         | some r => r.createdAt
         | none => nowMs),
        nowMs⟩ := by
  rw [heartbeatPost.eq_def, if_neg (by rw [hv]; simp)]
  refine ⟨rfl, ?_⟩
  cases hs : store addr with
  | none =>
    simp only [recordHeartbeat.eq_def, upd, hs, if_pos rfl]
    cases cp <;> rfl
  | some r =>
    simp [recordHeartbeat.eq_def, upd, hs, Option.getD]

/-- Witness for `C10_amended_heartbeat_upsert`: a brand-new address whose
chain read threw gets the default period `604800`. -/
theorem C10_witness :
    (heartbeatPost exSigOk 1 none 7 exHb "sig" 1000 111 (fun _ => none)).2 7 =
      some ⟨111, "sig", 604800, 111, 111⟩ := by
  have h := (C10_amended_heartbeat_upsert exSigOk 1 none 7 exHb "sig" 1000 111
    (fun _ => none) (by decide)).2
  rw [h]
  rfl

end Lazarus
